import Mathlib

set_option maxRecDepth 8000

/-!
Shallow embedding of parts of the cozy-desktop repository and of its
specification: the Electron shell state machine (src/gui/app/main.js), the
test-support directory walker (`ContextDir` in src/unnamed/part_000), the
scenario runner and the S3 scenario (same file), the trash integration
behaviour (src/test/integration/trash.js), and spec-modelled parts of the
sync core whose sources are not in this tree.
-/

namespace CozyDesktop

/-! ### String helpers

The JavaScript string operations used by the sources, modelled structurally
over the character list of a `String` so that every definition evaluates in
the kernel.
-/

/-- Occurrence of `sub` anywhere in a character list. -/
def charListOccurs (sub : List Char) : List Char → Bool
  | [] => sub.isEmpty
  | c :: cs => sub.isPrefixOf (c :: cs) || charListOccurs sub cs

/-- Substring occurrence: JS `String#match(/word/)`-style containment. -/
def strContains (s sub : String) : Bool := charListOccurs sub.data s.data

/-- JS `String#startsWith` / a `^...` anchored regex match. -/
def strStarts (s pre : String) : Bool := pre.data.isPrefixOf s.data

/-- JS `String#endsWith` / a `...$` anchored regex match. -/
def strEnds (s suf : String) : Bool := suf.data.isSuffixOf s.data

/-- JS `String#substr(n)`: drop the first `n` characters. -/
def dropStr (s : String) (n : Nat) : String := String.mk (s.data.drop n)

/-- node `path.basename` on a forward-slash path without trailing separator:
the part after the last `/`. -/
def basename (p : String) : String :=
  String.mk ((p.data.reverse.takeWhile (fun c => c != '/')).reverse)

/-- Lexicographic code-point comparison of character lists, the order JS
`Array#sort((a, b) => a.localeCompare(b))` is modelled with. -/
def charListLe : List Char → List Char → Bool
  | [], _ => true
  | _ :: _, [] => false
  | a :: as, b :: bs => if a = b then charListLe as bs else decide (a < b)

/-- JS `a.localeCompare(b) <= 0`, modelled as code-point order. -/
def localeLe (a b : String) : Bool := charListLe a.data b.data

/-- Relation form of `localeLe`, decidable, for the sorting lemmas. -/
def localeLeP (a b : String) : Prop := localeLe a b = true

instance : DecidableRel localeLeP := fun a b => instDecidableEqBool (localeLe a b) true

/-! ### The Electron shell state machine (src/gui/app/main.js)

The module-scope mutable state of main.js and the functions that drive the
tray, the last-files list and the error channel, embedded as pure
transitions. Electron calls (`tray.setImage`, `Menu.buildFromTemplate`,
`sendToMainWindow`, `fs.writeFile`) are modelled as fields of the state or
as emitted events.
-/

namespace Gui

/-- The translation table `app.translations`; `none` models a missing key. -/
abbrev Translations := String → Option String

/-- main.js `translate` fallback `key.substr(key.indexOf(' ') + 1)`: the key
without its first word, or the whole key when it contains no space. -/
def afterFirstSpace (key : String) : String :=
  if key.data.contains ' ' then
    String.mk ((key.data.dropWhile (fun c => c != ' ')).drop 1)
  else key

/-- main.js `translate`: the table entry when present and truthy, otherwise
the fallback (JS `||` treats the empty string as falsy). -/
def translate (tr : Translations) (key : String) : String :=
  match tr key with
  | some s => if s = "" then afterFirstSpace key else s
  | none => afterFirstSpace key

/-- JS truthiness of an optional string: `undefined` and `""` are falsy. -/
def truthy : Option String → Bool
  | none => false
  | some s => s != ""

/-- One tray context-menu entry: a separator or a labelled item with its
enabled flag (click handlers are not modelled). -/
inductive MenuItem where
  | item (label : String) (enabled : Bool)
  | separator
deriving DecidableEq, Repr

/-- The tray as main.js mutates it: icon key set through `setTrayIcon`,
tooltip from `setToolTip`, context menu from `setContextMenu`. -/
structure TrayState where
  icon : String
  tooltip : Option String
  menu : List MenuItem
deriving DecidableEq, Repr

/-- One entry of the `lastFiles` list built by `addFile`. -/
structure LastFile where
  filename : String
  path : String
  icon : String
  size : Nat
  updated : Nat
deriving DecidableEq, Repr

/-- The module-scope state of main.js touched by the modelled functions;
`persistedLastFiles` is the content of the `last-files` JSON written by
`persistLastFiles`. -/
structure AppState where
  state : String
  errorMessage : Option String
  tray : TrayState
  lastFiles : List LastFile
  persistedLastFiles : List LastFile
deriving DecidableEq, Repr

/-- electron `Menu.insert(2, item)` on the modelled menu list. -/
def menuInsert2 (menu : List MenuItem) (it : MenuItem) : List MenuItem :=
  menu.take 2 ++ [it] ++ menu.drop 2

/-- main.js `updateState(newState, filename)` as a pure transition.
`setTrayIcon` is modelled as recording the icon key it is called with;
`mainWindowOpen` and `newRelease` stand for the `mainWindow` and
`newReleaseAvailable` globals read while building the menu; a `none`
status label stands for JS `undefined`. -/
def updateState (tr : Translations) (mainWindowOpen newRelease : Bool)
    (s : AppState) (newState : String) (filename : Option String) : AppState :=
  if s.state = "error" ∧ newState = "offline" then s else
  let st := newState
  let iconLabelErr : String × Option String × Option String :=
    if st = "error" then ("error", filename, filename)
    else if truthy filename then
      ("sync", some (translate tr "Tray Syncing" ++ " ‟" ++ filename.getD "" ++ "“"),
        s.errorMessage)
    else if st = "up-to-date" ∨ st = "online" then
      ("idle", some (translate tr "Tray Your cozy is up to date"), s.errorMessage)
    else if st = "syncing" then
      ("sync", some (translate tr "Tray Syncing" ++ "…"), s.errorMessage)
    else if st = "offline" then
      ("pause", some (translate tr "Tray Offline"), s.errorMessage)
    else (s.tray.icon, some "", s.errorMessage)
  let template : List MenuItem :=
    [ .item (iconLabelErr.2.1.getD "undefined") false,
      .separator,
      .item (translate tr "Tray Open Cozy folder") true,
      .item (translate tr "Tray Go to my Cozy") true,
      .separator,
      .item (translate tr "Tray Help") true,
      .item (translate tr "Tray Settings") true,
      .separator,
      .item (translate tr "Tray Quit application") true ]
  let menu1 :=
    if mainWindowOpen then template
    else menuInsert2 template (.item (translate tr "Tray Show application") true)
  let menu2 :=
    if st = "error" then
      menuInsert2 menu1 (.item (translate tr "Tray Relaunch synchronization") true)
    else menu1
  let menu3 :=
    if newRelease then
      menuInsert2 menu2 (.item (translate tr "Tray A new release is available") true)
    else menu2
  { s with state := st, errorMessage := iconLabelErr.2.2,
           tray := { icon := iconLabelErr.1, tooltip := iconLabelErr.2.1, menu := menu3 } }

/-- An event sent to the renderer through `sendToMainWindow`. -/
inductive WinEvent where
  | revoked
  | syncError (msg : String)
  | transfer (f : LastFile)
  | deleteFile (f : LastFile)
deriving DecidableEq, Repr

/-- main.js `sendErrorToMainWindow(msg)`: the window events it sends, paired
with the body of the desktop notification it raises afterwards. -/
def sendErrorToMainWindow (tr : Translations) (msg : String) :
    List WinEvent × String :=
  if msg = "Client has been revoked" then
    ([.revoked],
      translate tr "Revoked It looks like you have revoked your client from your Cozy")
  else if msg = "Cozy is full" ∨ msg = "No more disk space" then
    ([.syncError (translate tr ("Error " ++ msg))], translate tr ("Error " ++ msg))
  else
    ([.syncError msg], msg)

/-- The fields of a progress-event payload read by `selectIcon`/`addFile`
(`info.path`, `info.class`, `info.mime`, `info.size`). -/
structure FileInfo where
  path : String
  fileClass : Option String
  mime : Option String
  size : Option Nat
deriving DecidableEq, Repr

/-- The twelve suffixes matched by the archive regex of `selectIcon`:
a slash or dash, an optional `b` or `g`, `zip`, an optional `2`, end. -/
def zipSuffixes : List String :=
  [ "/zip", "-zip", "/bzip", "-bzip", "/gzip", "-gzip",
    "/zip2", "-zip2", "/bzip2", "-bzip2", "/gzip2", "-gzip2" ]

/-- main.js `selectIcon(info)`: the icon key chosen from the file class and
MIME type; each source regex is expanded into the string tests it expresses
(`"application/" ++ 12` chars precede the `rtf` occurrence check). -/
def selectIcon (info : FileInfo) : String :=
  if info.fileClass = some "image" ∨ info.fileClass = some "video" then
    info.fileClass.getD "file"
  else if info.fileClass = some "music" then "audio"
  else if info.mime = some "application/pdf" then "pdf"
  else if info.mime = some "application/x-binary" then "binary"
  else if ¬ truthy info.mime then "file"
  else
    let m := info.mime.getD ""
    if zipSuffixes.any (fun suf => strEnds m suf) then "archive"
    else if strStarts m "text/html" ∨ strStarts m "text/xml" ∨
            strStarts m "application/html" ∨ strStarts m "application/xml" then "code"
    else if strStarts m "text/" then "text"
    else if strStarts m "application/" ∧ strContains (dropStr m 12) "rtf" then "text"
    else if strContains m "word" then "text"
    else if strContains m "powerpoint" then "presentation"
    else if strContains m "excel" then "spreadsheet"
    else "file"

/-- The `lastFiles` entry `addFile` builds from a progress payload at clock
time `now` (`+new Date()`). -/
def mkLastFile (info : FileInfo) (now : Nat) : LastFile :=
  { filename := basename info.path, path := info.path, icon := selectIcon info,
    size := info.size.getD 0, updated := now }

/-- main.js `addFile(info)`: tray update through
`updateState('syncing', filename)`, push of the new entry,
`lastFiles = lastFiles.slice(-250)`, the `transfer` event, and
`persistLastFiles()`. -/
def addFile (tr : Translations) (mw nr : Bool) (s : AppState) (info : FileInfo)
    (now : Nat) : AppState × List WinEvent :=
  let file := mkLastFile info now
  let s1 := updateState tr mw nr s "syncing" (some file.filename)
  let lf0 := s1.lastFiles ++ [file]
  let lf := lf0.drop (lf0.length - 250)
  ({ s1 with lastFiles := lf, persistedLastFiles := lf }, [.transfer file])

/-- main.js `removeFile(info)`: filter the entry out by path, send the
`delete-file` event, persist. -/
def removeFile (s : AppState) (info : FileInfo) : AppState × List WinEvent :=
  let file : LastFile :=
    { filename := basename info.path, path := info.path, icon := "", size := 0,
      updated := 0 }
  let lf := s.lastFiles.filter (fun f => f.path != file.path)
  ({ s with lastFiles := lf, persistedLastFiles := lf }, [.deleteFile file])

/-- main.js `loadLastFiles`: read the persisted `last-files` JSON into the
module state; a failed read or parse (`none`) leaves the list as it is. -/
def loadLastFiles (disk : Option (List LastFile)) (s : AppState) : AppState :=
  match disk with
  | some files => { s with lastFiles := files }
  | none => s

/-- The `transfer` events `startSync` sends to repopulate the UI:
`for (let file of lastFiles) sendToMainWindow('transfer', file)`. -/
def startSyncTransfers (s : AppState) : List WinEvent :=
  s.lastFiles.map WinEvent.transfer

/-- The persisted entries in `updated`-descending order (newest first). -/
def sortedByUpdatedDesc (l : List LastFile) : Prop :=
  l.Pairwise (fun a b => b.updated ≤ a.updated)

/-- The persisted entries in `updated`-ascending order (recording order). -/
def sortedByUpdatedAsc (l : List LastFile) : Prop :=
  l.Pairwise (fun a b => a.updated ≤ b.updated)

/-- An empty translation table: every key falls back to its untranslated
text. -/
def noTranslations : Translations := fun _ => none

/-- The module state as main.js initializes it (`state = 'not-configured'`,
`errorMessage = ''`, empty lists). -/
def initialAppState : AppState :=
  { state := "not-configured", errorMessage := some "",
    tray := { icon := "idle", tooltip := none, menu := [] },
    lastFiles := [], persistedLastFiles := [] }

/-- The state after two transfer events, recorded at clock times 1 then 2. -/
def afterTwoTransfers : AppState :=
  (addFile noTranslations true false
    (addFile noTranslations true false initialAppState
      { path := "a.txt", fileClass := none, mime := none, size := some 1 } 1).1
    { path := "b.txt", fileClass := none, mime := none, size := some 2 } 2).1

end Gui

/-! ### The test-support directory walker (`ContextDir` in src/unnamed/part_000)

`ContextDir.tree` walks the directory breadth-first with a queue
(`dirsToRead`), collects forward-slash relative paths — `stat.isDirectory()`
entries suffixed with `/` — sorts them with
`(a, b) => a.localeCompare(b)` and filters out the `TMP_DIR_NAME + '/'`
entry. The filesystem is modelled as a tree of readdir listings.
-/

namespace CtxDir

mutual

/-- A filesystem node: a plain file, or a directory with its listing. -/
inductive FSEntry where
  | file : FSEntry
  | dir : FSListing → FSEntry

/-- A readdir listing: the named entries of one directory, in readdir
order. -/
inductive FSListing where
  | nil : FSListing
  | cons (name : String) (entry : FSEntry) (rest : FSListing) : FSListing

end

mutual

/-- Number of filesystem nodes below (and including) an entry. -/
def FSEntry.sz : FSEntry → Nat
  | .file => 1
  | .dir cs => 1 + FSListing.sz cs

/-- Number of filesystem nodes of a listing. -/
def FSListing.sz : FSListing → Nat
  | .nil => 0
  | .cons _ e rest => FSEntry.sz e + FSListing.sz rest

end

/-- The relative path of entry `name` inside the directory at relative path
`dirRel` (`relpath(path.join(dir, name))` with forward slashes). -/
def childRel (dirRel name : String) : String :=
  if dirRel = "" then name else dirRel ++ "/" ++ name

/-- The relative paths pushed onto `relPaths` while one directory is read:
one per entry, in readdir order, directories suffixed with `/`. -/
def listingOuts (dirRel : String) : FSListing → List String
  | .nil => []
  | .cons name e rest =>
      (match e with
        | .file => childRel dirRel name
        | .dir _ => childRel dirRel name ++ "/") :: listingOuts dirRel rest

/-- The subdirectories pushed onto `dirsToRead` while one directory is
read, in readdir order, each with its relative path. -/
def listingDirs (dirRel : String) : FSListing → List (String × FSListing)
  | .nil => []
  | .cons name e rest =>
      match e with
      | .file => listingDirs dirRel rest
      | .dir cs => (childRel dirRel name, cs) :: listingDirs dirRel rest

/-- Total node count of the queued listings plus one per queue element; a
strictly decreasing measure of the `while` loop of `ContextDir.tree`. -/
def queueMeasure : List (String × FSListing) → Nat
  | [] => 0
  | q :: rest => 1 + q.2.sz + queueMeasure rest

/-- The `while (true)` loop of `ContextDir.tree`: shift one directory off
the queue, emit its entries' relative paths, append its subdirectories to
the queue. `fuel` bounds the iteration count; `treeLoop` supplies a fuel
that is always sufficient, so the `0` branch is never taken there. -/
def treeLoopFuel : Nat → List (String × FSListing) → List String
  | 0, _ => []
  | _ + 1, [] => []
  | fuel + 1, q :: rest =>
      listingOuts q.1 q.2 ++ treeLoopFuel fuel (rest ++ listingDirs q.1 q.2)

/-- The loop of `ContextDir.tree`, run to completion. -/
def treeLoop (q : List (String × FSListing)) : List String :=
  treeLoopFuel (queueMeasure q) q

/-- Function `ContextDir.tree`: the breadth-first collection starting from the root,
sorted with `localeCompare` and with the `TMP_DIR_NAME + '/'` entry
filtered out. `tmp` stands for `TMP_DIR_NAME` (core/local/constants, not in
this tree). -/
def tree (tmp : String) (root : FSListing) : List String :=
  (List.insertionSort localeLeP (treeLoop [("", root)])).filter
    (fun r => r != tmp ++ "/")

mutual

/-- Claim-side description: the relative paths of every node reachable
through the entry `name` of the directory at `dirRel`, directories
suffixed with `/`. -/
def reachEntry (dirRel name : String) : FSEntry → List String
  | .file => [childRel dirRel name]
  | .dir cs =>
      (childRel dirRel name ++ "/") :: reachListing (childRel dirRel name) cs

/-- Claim-side description: the relative paths of every node reachable
from the directory at `dirRel` with the given listing. -/
def reachListing (dirRel : String) : FSListing → List String
  | .nil => []
  | .cons name e rest => reachEntry dirRel name e ++ reachListing dirRel rest

end

/-- Every entry reachable from the root, as relative paths. -/
def rootRels (root : FSListing) : List String := reachListing "" root

/-- The reachable entries of a whole queue, in queue order. -/
def flatQueue : List (String × FSListing) → List String
  | [] => []
  | q :: rest => reachListing q.1 q.2 ++ flatQueue rest

/-- A sample tree: a staging directory, a file `b`, and a directory `a`
containing a file `c`. -/
def sampleRoot : FSListing :=
  .cons "tmp-stage" (.dir .nil)
    (.cons "b" .file
      (.cons "a" (.dir (.cons "c" .file .nil)) .nil))

end CtxDir

/-! ### The scenario runner and the S3 scenario (src/unnamed/part_000)

`init` builds the synchronized starting tree (a trailing `/` marks a
directory, file content defaults to `"foo"`), `runActions` replays the
scenario's actions on the local side (`>` writes `"whatever"`, `>>`
appends `" blah"`, `mv` is `fs.rename`, `trash`/`delete` are
`fs.remove`), and the expected block is compared against the remote side
after the sync has converged. Convergence itself is modelled from the
spec (testable properties 1 and 4), the sync core not being in this tree.
-/

namespace Scenario

/-- The local side of a scenario run: directory paths (no trailing
slash), file paths with contents, and the record of trashed items. -/
structure ScenarioFS where
  dirs : List String
  files : List (String × String)
  trash : List String
deriving DecidableEq, Repr

/-- The action kinds of `runActions`. -/
inductive Action where
  | mkdir (path : String)
  | write (path : String)
  | append (path : String)
  | trash (path : String)
  | delete (path : String)
  | mv (mergeDirs force : Bool) (src dst : String)
  | wait (ms : Nat)
deriving DecidableEq, Repr

/-- Effect of `fs.rename(src, dst)` on one stored path: the path itself or
anything below it moves under `dst`. -/
def renamePath (src dst p : String) : String :=
  if p = src then dst
  else if strStarts p (src ++ "/") then dst ++ "/" ++ dropStr p (src.length + 1)
  else p

/-- Effect of `fs.remove(p)`: drop `p` and everything below it. -/
def removeSubtree (fs : ScenarioFS) (p : String) : ScenarioFS :=
  { fs with
    dirs := fs.dirs.filter (fun d => !(d == p || strStarts d (p ++ "/"))),
    files := fs.files.filter (fun f => !(f.1 == p || strStarts f.1 (p ++ "/"))) }

/-- Effect of `fs.outputFile(p, content)`: overwrite or create. -/
def upsertWrite (files : List (String × String)) (p content : String) :
    List (String × String) :=
  if files.any (fun f => f.1 == p) then
    files.map (fun f => if f.1 == p then (f.1, content) else f)
  else files ++ [(p, content)]

/-- Effect of `fs.appendFile(p, suffixStr)`: append, creating the file when absent. -/
def upsertAppend (files : List (String × String)) (p suffixStr : String) :
    List (String × String) :=
  if files.any (fun f => f.1 == p) then
    files.map (fun f => if f.1 == p then (f.1, f.2 ++ suffixStr) else f)
  else files ++ [(p, suffixStr)]

/-- One `runActions` step. `trash` and `delete` are both `fs.remove`; the
removed item is recorded in `trash` because, per the spec, a local removal
is merged as a trash and propagated to the remote trash. The un-merged
`mv` is `fs.rename`: a prefix rewrite of every stored path; the `force`
variant removes the destination first; the `merge` variant copies the
source entries over the destination and removes the source. -/
def applyAction (fs : ScenarioFS) (a : Action) : ScenarioFS :=
  match a with
  | .mkdir p => if fs.dirs.any (fun d => d == p) then fs
      else { fs with dirs := fs.dirs ++ [p] }
  | .write p => { fs with files := upsertWrite fs.files p "whatever" }
  | .append p => { fs with files := upsertAppend fs.files p " blah" }
  | .trash p => { (removeSubtree fs p) with trash := fs.trash ++ [basename p] }
  | .delete p => { (removeSubtree fs p) with trash := fs.trash ++ [basename p] }
  | .mv mergeDirs force src dst =>
      if mergeDirs then
        let copied : ScenarioFS :=
          { fs with
            dirs := fs.dirs.foldl
              (fun ds d =>
                if strStarts d (src ++ "/") ∧ ¬ ds.contains (renamePath src dst d) then
                  ds ++ [renamePath src dst d]
                else ds)
              fs.dirs,
            files := fs.files.foldl
              (fun acc f =>
                if f.1 == src ∨ strStarts f.1 (src ++ "/") then
                  upsertWrite acc (renamePath src dst f.1) f.2
                else acc)
              fs.files }
        removeSubtree copied src
      else if force then
        let cleared : ScenarioFS := removeSubtree fs dst
        { cleared with
          dirs := cleared.dirs.map (renamePath src dst),
          files := cleared.files.map (fun f => (renamePath src dst f.1, f.2)) }
      else
        { fs with
          dirs := fs.dirs.map (renamePath src dst),
          files := fs.files.map (fun f => (renamePath src dst f.1, f.2)) }
  | .wait _ => fs

/-- Function `runActions`: `Promise.each` over the scenario's actions. -/
def runActions (fs : ScenarioFS) (actions : List Action) : ScenarioFS :=
  actions.foldl applyAction fs

/-- One entry of a scenario's `init` block. -/
structure InitEntry where
  path : String
  content : Option String
deriving DecidableEq, Repr

/-- The default file content written by `init` when none is given. -/
def initDefaultContent : String := "foo"

/-- lodash `_.trimEnd(relpath, '/')`. -/
def trimTrailingSlashes (p : String) : String :=
  String.mk ((p.data.reverse.dropWhile (fun c => c == '/')).reverse)

/-- The scenario `init` helper: a trailing slash creates a directory, any
other path a file whose content defaults to `"foo"`. -/
def initFS (entries : List InitEntry) : ScenarioFS :=
  entries.foldl
    (fun fs e =>
      if strEnds e.path "/" then
        { fs with dirs := fs.dirs ++ [trimTrailingSlashes e.path] }
      else
        { fs with files := fs.files ++ [(e.path, e.content.getD initDefaultContent)] })
    { dirs := [], files := [], trash := [] }

/-- The tree listing of a scenario filesystem, in the format of the
scenarios' `expected.tree`: directories suffixed with `/`, sorted. -/
def treeOf (fs : ScenarioFS) : List String :=
  List.insertionSort localeLeP (fs.dirs.map (fun d => d ++ "/") ++ fs.files.map Prod.fst)

/-- The remote side once the sync has converged. -/
structure RemoteState where
  tree : List String
  contents : List (String × String)
  trash : List String
deriving DecidableEq, Repr

/-- Modelled from the spec: testable property 1 (Convergence) — once both
watchers drain and the executor goes idle, the remote holds the same paths
and contents as the local tree — and property 4 — a resolvable rename
produces exactly one remote rename and no delete/create pair, so only
trashed items reach the remote trash. The sync core is not in this tree. -/
def convergedRemote (fs : ScenarioFS) : RemoteState :=
  { tree := treeOf fs, contents := fs.files, trash := fs.trash }

/-- Content lookup on the converged remote. -/
def lookupContent (files : List (String × String)) (p : String) : Option String :=
  (files.find? (fun f => f.1 == p)).map Prod.snd

/-- A scenario's expected block. -/
structure Expected where
  tree : List String
  remoteTrash : List String
  contents : List (String × String)
deriving DecidableEq, Repr

/-- A scenario file. -/
structure ScenarioFile where
  side : String
  init : List InitEntry
  actions : List Action
  expected : Expected
deriving DecidableEq, Repr

/-- The S3 scenario literal (src/unnamed/part_000, third document):
`src/` and `src/file`, rename `src` to `dst`, append to `dst/file`. -/
def s3 : ScenarioFile :=
  { side := "remote",
    init := [⟨"src/", none⟩, ⟨"src/file", none⟩],
    actions := [.mv false false "src" "dst", .append "dst/file"],
    expected :=
      { tree := ["dst/", "dst/file"], remoteTrash := [],
        contents := [("dst/file", "foo blah")] } }

end Scenario

/-! ### Conflict renaming on a case-insensitive platform

The Path Normalizer and the Merger's conflict renaming are not in this
tree; they are modelled from the spec (sections 4.1 and 4.6, data-model
invariant 2). The DISABLED case-conflict scenario
(src/test/scenarios/case_and_encoding/...) expects `JOHN/` kept and a
`john-conflict...` sibling.
-/

namespace Conflict

/-- Modelled from the spec: section 4.1 — the canonical id of a path on a
case-insensitive platform (macOS, Windows) is the path lower-cased. -/
def idOnCaseInsensitive (p : String) : String :=
  String.mk (p.data.map Char.toLower)

/-- Split a name at its last dot: the part before it and the extension
including the dot; a dotless name has the empty extension. -/
def splitExt (name : String) : String × String :=
  let cs := name.data
  if cs.contains '.' then
    let ext := '.' :: (cs.reverse.takeWhile (fun c => c != '.')).reverse
    (String.mk (cs.take (cs.length - ext.length)), String.mk ext)
  else (name, "")

/-- Modelled from the spec: section 4.6 — conflict naming appends
`-conflict-<ISO8601 timestamp>` before the extension. -/
def conflictName (name ts : String) : String :=
  (splitExt name).1 ++ "-conflict-" ++ ts ++ (splitExt name).2

/-- Modelled from the spec: data-model invariant 2 and section 4.6 — when
an arriving addition's path folds to the canonical id of an existing
entry, the existing entry is kept and the intruder (the second arrival) is
conflict-renamed; otherwise the addition keeps its name. -/
def reconcileAddition (existing : List String) (incoming ts : String) :
    List String :=
  if existing.any (fun e =>
      idOnCaseInsensitive e == idOnCaseInsensitive incoming) then
    existing ++ [conflictName incoming ts]
  else existing ++ [incoming]

end Conflict

/-! ### Batch ordering in the Sync executor

The Sync executor is not in this tree; its batch ordering is modelled from
the spec (section 4.7, Ordering): deletes sorted by path depth descending,
creates and moves by path depth ascending, both stably, so equal depths
keep document-sequence order. The putDocs expectations of
src/test/integration/trash.js show the depth-descending delete order
(`subdir`, `empty-subdir`, then `dir`).
-/

namespace Order

/-- A pending operation of a batch: the document's path split into
segments, and the document sequence number of the batch feed. -/
structure SyncOp where
  segments : List String
  seq : Nat
deriving DecidableEq, Repr

/-- Path depth: the number of path segments. -/
def opDepth (op : SyncOp) : Nat := op.segments.length

/-- Delete order: deeper paths first (children before parents). -/
def deleteLe (a b : SyncOp) : Prop := opDepth b ≤ opDepth a

/-- Create/move order: shallower paths first (parents before children). -/
def createLe (a b : SyncOp) : Prop := opDepth a ≤ opDepth b

instance : DecidableRel deleteLe := fun a b => Nat.decLe (opDepth b) (opDepth a)

instance : DecidableRel createLe := fun a b => Nat.decLe (opDepth a) (opDepth b)

instance : IsTotal SyncOp deleteLe :=
  ⟨fun a b => Nat.le_total (opDepth b) (opDepth a)⟩

instance : IsTotal SyncOp createLe :=
  ⟨fun a b => Nat.le_total (opDepth a) (opDepth b)⟩

instance : IsTrans SyncOp deleteLe :=
  ⟨fun _ _ _ h1 h2 => Nat.le_trans h2 h1⟩

instance : IsTrans SyncOp createLe :=
  ⟨fun _ _ _ h1 h2 => Nat.le_trans h1 h2⟩

/-- Modelled from the spec: section 4.7 — the deletes of a batch are
applied in path-depth-descending order, by a stable sort. -/
def sortDeletes (ops : List SyncOp) : List SyncOp :=
  List.insertionSort deleteLe ops

/-- Modelled from the spec: section 4.7 — the creates and moves of a batch
are applied in path-depth-ascending order, by a stable sort. -/
def sortCreates (ops : List SyncOp) : List SyncOp :=
  List.insertionSort createLe ops

/-- Path `a` is a strict ancestor of path `b`: `b` extends `a` by at least
one segment. -/
def strictAncestor (a b : List String) : Prop :=
  ∃ rest, rest ≠ [] ∧ b = a ++ rest

end Order

/-! ### Trash behaviour (src/test/integration/trash.js)

The Merger and the Sync executor are not in this tree; their trash
behaviour is modelled from the spec and pinned against the putDocs and
tree expectations of the integration test. The store is PouchDB: putting
a document with `_deleted: true` leaves an internal tombstone but a
subsequent `get` of the id rejects with status 404.
-/

namespace Trash

/-- Document kinds. -/
inductive DocType where
  | file
  | folder
deriving DecidableEq, Repr

/-- A metadata document, reduced to the fields the trash tests inspect. -/
structure MetaDoc where
  path : String
  docType : DocType
deriving DecidableEq, Repr

/-- A write recorded through `pouch.put`, projected like the test's
`putDocs('path', '_deleted', 'trashed')`. -/
structure PutDoc where
  path : String
  deleted : Bool
deriving DecidableEq, Repr

/-- Whether `p` lies strictly under the folder `folder`. -/
def isUnder (folder p : String) : Bool := strStarts p (folder ++ "/")

/-- The metadata documents after the initial sync of the directory test:
`parent/`, `parent/dir/`, `parent/dir/empty-subdir/`, `parent/dir/subdir/`
and `parent/dir/subdir/file`, in creation order. -/
def dirTestDocs : List MetaDoc :=
  [ ⟨"parent", .folder⟩, ⟨"parent/dir", .folder⟩,
    ⟨"parent/dir/empty-subdir", .folder⟩, ⟨"parent/dir/subdir", .folder⟩,
    ⟨"parent/dir/subdir/file", .file⟩ ]

/-- Modelled from the spec: the Merger's folder trash (not in this tree).
Spec section 9, open question (a): the source omits descendant-file
delete documents during folder trashing; matching the putDocs expectation
of the trash.js directory tests, a folder trash writes a `_deleted`
document for each descendant folder — most recently created first — then
for the folder itself, and none for descendant files. -/
def trashFolderPutDocs (docs : List MetaDoc) (folder : String) : List PutDoc :=
  ((docs.filter (fun d => isUnder folder d.path && d.docType == DocType.folder)).reverse).map
    (fun d => ⟨d.path, true⟩) ++ [⟨folder, true⟩]

/-- The store rows (document, deleted flag) after a list of puts: a put
with `_deleted: true` flips the row's flag. -/
def applyPuts (rows : List (MetaDoc × Bool)) (puts : List PutDoc) :
    List (MetaDoc × Bool) :=
  puts.foldl
    (fun st p => st.map (fun d => if d.1.path == p.path then (d.1, p.deleted) else d))
    rows

/-- A PouchDB row: the document id, the document, and the `_deleted`
tombstone flag. -/
structure PouchRow where
  id : String
  doc : MetaDoc
  deleted : Bool
deriving DecidableEq, Repr

/-- The modelled store plus whether the other (remote) side has already
acknowledged the deletion through `syncAll`. -/
structure PouchState where
  rows : List PouchRow
  remoteAcked : Bool
deriving DecidableEq, Repr

/-- Function `metadata.id` on a case-sensitive platform: the path itself. -/
def metadataId (p : String) : String := p

/-- PouchDB `db.get(id)`: a missing or `_deleted` document rejects with
status 404, modelled as `none`. -/
def getById (ps : PouchState) (id : String) : Option MetaDoc :=
  match ps.rows.find? (fun r => r.id == id && !r.deleted) with
  | some r => some r.doc
  | none => none

/-- Modelled from the spec and the trash.js file tests: merging a `trash`
event writes the document with `_deleted: true` (the putDocs expectation
`(path, _deleted: true)`), flipping the tombstone flag of the row. -/
def mergeTrashFile (ps : PouchState) (p : String) : PouchState :=
  { ps with
    rows := ps.rows.map
      (fun r => if r.id == metadataId p then { r with deleted := true } else r) }

/-- The store after the initial sync of the file test: `parent/` and
`parent/file`, both live, the remote side not having acknowledged any
deletion. -/
def fileTestState : PouchState :=
  { rows :=
      [ ⟨"parent", ⟨"parent", DocType.folder⟩, false⟩,
        ⟨"parent/file", ⟨"parent/file", DocType.file⟩, false⟩ ],
    remoteAcked := false }

/-- Modelled from the spec: section 4.7 — the executor's `trash` on the
local side moves the item to `/Trash` under the local root on POSIX (the
Sync executor is not in this tree); the tree expectations of trash.js
list the trashed items under `/Trash/`. -/
def localTrashDirName : String := "/Trash"

/-- The remote trash: the directory whose id is `.cozy_trash` (spec
section 6; the remote tree expectations of trash.js list it as
`.cozy_trash/`). -/
def remoteTrashDirId : String := ".cozy_trash"

/-- The local side: relative paths under the sync root (directories with
a trailing slash) and the contents of the local trash. -/
structure LocalSide where
  entries : List String
  trash : List String
deriving DecidableEq, Repr

/-- Modelled from the spec: the executor's local application of a merged
remote file trash — remove the file from the tree and move it into the
local trash under its basename. -/
def applyLocalFileTrash (side : LocalSide) (p : String) : LocalSide :=
  { entries := side.entries.filter (fun e => e != p),
    trash := side.trash ++ [basename p] }

/-- Listing `helpers.local.tree()` as the file test expects it: the local trash
contents prefixed with the trash location, then the remaining tree
entries, sorted. -/
def localTree (side : LocalSide) : List String :=
  List.insertionSort localeLeP
    (side.trash.map (fun t => localTrashDirName ++ "/" ++ t) ++ side.entries)

/-- The local side after the initial sync of the file test: `parent/` and
`parent/file`, empty trash. -/
def fileTestLocal : LocalSide :=
  { entries := ["parent/", "parent/file"], trash := [] }

end Trash

/-! ### Theorems

The claims settled against the embedding above, one main theorem per
claim, with the supporting lemmas, order instances, counterexamples and
concrete witnesses.
-/

theorem charListLe_total : ∀ as bs, charListLe as bs = true ∨ charListLe bs as = true
  | [], _ => Or.inl rfl
  | _ :: _, [] => Or.inr rfl
  | a :: as, b :: bs => by
    by_cases hab : a = b
    · subst hab
      simpa [charListLe] using charListLe_total as bs
    · rcases lt_or_gt_of_ne hab with h | h
      · exact Or.inl (by simp [charListLe, hab, h])
      · exact Or.inr (by simp [charListLe, Ne.symm hab, h])

theorem charListLe_trans :
    ∀ as bs cs, charListLe as bs = true → charListLe bs cs = true →
      charListLe as cs = true
  | [], _, _, _, _ => rfl
  | _ :: _, [], _, h, _ => by simp [charListLe] at h
  | _ :: _, _ :: _, [], _, h => by simp [charListLe] at h
  | a :: as, b :: bs, c :: cs, h1, h2 => by
    by_cases hab : a = b <;> by_cases hbc : b = c
    · subst hab; subst hbc
      simp only [charListLe, if_pos rfl] at h1 h2 ⊢
      exact charListLe_trans as bs cs h1 h2
    · subst hab
      simpa [charListLe, hbc] using h2
    · subst hbc
      simpa [charListLe, hab] using h1
    · simp only [charListLe, if_neg hab, if_neg hbc, decide_eq_true_eq] at h1 h2
      have hac : a < c := lt_trans h1 h2
      simp [charListLe, ne_of_lt hac, hac]

instance : IsTotal String localeLeP := ⟨fun a b => charListLe_total a.data b.data⟩

instance : IsTrans String localeLeP :=
  ⟨fun a b c => charListLe_trans a.data b.data c.data⟩

namespace Gui

theorem updateState_lastFiles (tr : Translations) (mw nr : Bool) (s : AppState)
    (ns : String) (f : Option String) :
    (updateState tr mw nr s ns f).lastFiles = s.lastFiles := by
  unfold updateState
  split <;> rfl

/-- C9: once the tray state is `'error'`, an `updateState` call with
`'offline'` returns without touching anything: state, tray icon, error
message and tray menu all stay exactly as they were. -/
theorem errorStateSurvivesOffline (tr : Translations) (mw nr : Bool)
    (s : AppState) (f : Option String) (h : s.state = "error") :
    updateState tr mw nr s "offline" f = s := by
  simp [updateState, h]

/-- Witness for `errorStateSurvivesOffline` at a concrete error state. -/
theorem errorStateSurvivesOffline_witness :
    updateState noTranslations true false
      { state := "error", errorMessage := some "boom",
        tray := { icon := "error", tooltip := some "boom", menu := [] },
        lastFiles := [], persistedLastFiles := [] } "offline" (some "f") =
      { state := "error", errorMessage := some "boom",
        tray := { icon := "error", tooltip := some "boom", menu := [] },
        lastFiles := [], persistedLastFiles := [] } :=
  errorStateSurvivesOffline noTranslations true false _ (some "f") rfl

/-- C8: a sync halt whose error message is `Client has been revoked` sends
the `revoked` event to the UI, and one whose message is `Cozy is full`
sends a sync-error whose message is `Cozy is full` (no translation entry
overrides the error text). -/
theorem haltEventsRevokedAndQuota (tr : Translations)
    (h : tr "Error Cozy is full" = none) :
    (sendErrorToMainWindow tr "Client has been revoked").1 = [WinEvent.revoked] ∧
    (sendErrorToMainWindow tr "Cozy is full").1 =
      [WinEvent.syncError "Cozy is full"] := by
  constructor
  · rfl
  · have h2 : tr ("Error " ++ "Cozy is full") = none := h
    simp only [sendErrorToMainWindow, translate, h2]
    rfl

/-- Witness for `haltEventsRevokedAndQuota` with the empty translation
table. -/
theorem haltEventsRevokedAndQuota_witness :
    (sendErrorToMainWindow noTranslations "Client has been revoked").1 =
      [WinEvent.revoked] ∧
    (sendErrorToMainWindow noTranslations "Cozy is full").1 =
      [WinEvent.syncError "Cozy is full"] :=
  haltEventsRevokedAndQuota noTranslations rfl

/-- C4 counterexample: after two transfer events at clock times 1 then 2
the persisted last-files list holds updated values `[1, 2]` — recording
order, `updated` ascending — so it is not sorted by `updated` descending. -/
theorem lastFilesNotDescending :
    afterTwoTransfers.persistedLastFiles.map LastFile.updated = [1, 2] ∧
    ¬ sortedByUpdatedDesc afterTwoTransfers.persistedLastFiles := by
  have h : afterTwoTransfers.persistedLastFiles.map LastFile.updated = [1, 2] := by rfl
  refine ⟨h, fun hd => ?_⟩
  rw [sortedByUpdatedDesc] at hd
  have h2 : (afterTwoTransfers.persistedLastFiles.map LastFile.updated).Pairwise
      (fun u v : Nat => v ≤ u) := by
    rw [List.pairwise_map]
    exact hd
  rw [h] at h2
  simp at h2

theorem addFile_lastFiles (tr : Translations) (mw nr : Bool) (s : AppState)
    (info : FileInfo) (now : Nat) :
    (addFile tr mw nr s info now).1.lastFiles =
      (s.lastFiles ++ [mkLastFile info now]).drop
        ((s.lastFiles ++ [mkLastFile info now]).length - 250) ∧
    (addFile tr mw nr s info now).1.persistedLastFiles =
      (addFile tr mw nr s info now).1.lastFiles := by
  constructor
  · show ((updateState tr mw nr s "syncing" (some (mkLastFile info now).filename)).lastFiles
        ++ [mkLastFile info now]).drop _ = _
    rw [updateState_lastFiles]
  · rfl

/-- C4 amended: after a transfer event is recorded at clock time `now`, the
persisted last-files list equals the in-memory list, holds at most 250
entries — a suffix of the recorded sequence, i.e. the last ones — is
sorted by `updated` ascending (recording order) when the clock is
monotone, and a restart repopulates the UI with exactly one `transfer`
event per persisted entry. -/
theorem lastFilesPersistence (tr : Translations) (mw nr : Bool) (s : AppState)
    (info : FileInfo) (now : Nat)
    (hasc : sortedByUpdatedAsc s.lastFiles)
    (hmono : ∀ e ∈ s.lastFiles, e.updated ≤ now) :
    (addFile tr mw nr s info now).1.persistedLastFiles =
      (addFile tr mw nr s info now).1.lastFiles ∧
    (addFile tr mw nr s info now).1.persistedLastFiles.length ≤ 250 ∧
    (addFile tr mw nr s info now).1.persistedLastFiles <:+
      (s.lastFiles ++ [mkLastFile info now]) ∧
    sortedByUpdatedAsc (addFile tr mw nr s info now).1.persistedLastFiles ∧
    ∀ s2 : AppState,
      startSyncTransfers
        (loadLastFiles (some (addFile tr mw nr s info now).1.persistedLastFiles) s2) =
      (addFile tr mw nr s info now).1.persistedLastFiles.map WinEvent.transfer := by
  obtain ⟨hlf, hpers⟩ := addFile_lastFiles tr mw nr s info now
  rw [hpers, hlf]
  have hsorted : sortedByUpdatedAsc (s.lastFiles ++ [mkLastFile info now]) := by
    rw [sortedByUpdatedAsc, List.pairwise_append]
    refine ⟨hasc, List.pairwise_singleton _ _, ?_⟩
    intro a ha b hb
    rw [List.mem_singleton] at hb
    subst hb
    exact hmono a ha
  refine ⟨rfl, ?_, List.drop_suffix _ _, ?_, fun s2 => rfl⟩
  · rw [List.length_drop]
    omega
  · exact hsorted.sublist (List.drop_sublist _ _)

/-- Witness for `lastFilesPersistence`: one transfer recorded at time 7
from the initial state. -/
theorem lastFilesPersistence_witness :
    (addFile noTranslations true false initialAppState
        { path := "a.txt", fileClass := none, mime := none, size := some 1 } 7).1.persistedLastFiles =
      (addFile noTranslations true false initialAppState
        { path := "a.txt", fileClass := none, mime := none, size := some 1 } 7).1.lastFiles ∧
    (addFile noTranslations true false initialAppState
        { path := "a.txt", fileClass := none, mime := none, size := some 1 } 7).1.persistedLastFiles.length ≤ 250 ∧
    (addFile noTranslations true false initialAppState
        { path := "a.txt", fileClass := none, mime := none, size := some 1 } 7).1.persistedLastFiles <:+
      (initialAppState.lastFiles ++
        [mkLastFile { path := "a.txt", fileClass := none, mime := none, size := some 1 } 7]) ∧
    sortedByUpdatedAsc
      (addFile noTranslations true false initialAppState
        { path := "a.txt", fileClass := none, mime := none, size := some 1 } 7).1.persistedLastFiles ∧
    ∀ s2 : AppState,
      startSyncTransfers
        (loadLastFiles
          (some (addFile noTranslations true false initialAppState
            { path := "a.txt", fileClass := none, mime := none, size := some 1 } 7).1.persistedLastFiles) s2) =
      (addFile noTranslations true false initialAppState
        { path := "a.txt", fileClass := none, mime := none, size := some 1 } 7).1.persistedLastFiles.map
        WinEvent.transfer :=
  lastFilesPersistence noTranslations true false initialAppState
    { path := "a.txt", fileClass := none, mime := none, size := some 1 } 7
    (List.Pairwise.nil) (by intro e he; simp [initialAppState] at he)

end Gui

namespace CtxDir

theorem queueMeasure_append :
    ∀ q1 q2, queueMeasure (q1 ++ q2) = queueMeasure q1 + queueMeasure q2
  | [], q2 => by simp [queueMeasure]
  | q :: rest, q2 => by
      simp [queueMeasure, queueMeasure_append rest q2]
      omega

theorem queueMeasure_listingDirs (dirRel : String) :
    ∀ es : FSListing, queueMeasure (listingDirs dirRel es) ≤ es.sz
  | .nil => Nat.le_refl 0
  | .cons name e rest => by
      cases e with
      | file =>
          have ih := queueMeasure_listingDirs dirRel rest
          simp only [listingDirs, FSListing.sz, FSEntry.sz]
          omega
      | dir cs =>
          have ih := queueMeasure_listingDirs dirRel rest
          simp only [listingDirs, FSListing.sz, FSEntry.sz, queueMeasure]
          omega

theorem treeLoopFuel_congr :
    ∀ (f1 f2 : Nat) (q : List (String × FSListing)),
      queueMeasure q ≤ f1 → queueMeasure q ≤ f2 →
      treeLoopFuel f1 q = treeLoopFuel f2 q
  | f1, f2, [], _, _ => by cases f1 <;> cases f2 <;> rfl
  | f1, f2, (r, es) :: rest, h1, h2 => by
      have hq : queueMeasure ((r, es) :: rest) = 1 + es.sz + queueMeasure rest := rfl
      cases f1 with
      | zero => omega
      | succ k1 =>
        cases f2 with
        | zero => omega
        | succ k2 =>
          have hdirs := queueMeasure_listingDirs r es
          have hd : queueMeasure (rest ++ listingDirs r es) ≤ es.sz + queueMeasure rest := by
            rw [queueMeasure_append]
            omega
          simp only [treeLoopFuel]
          rw [treeLoopFuel_congr k1 k2 (rest ++ listingDirs r es) (by omega) (by omega)]

theorem treeLoop_cons (r : String) (es : FSListing)
    (rest : List (String × FSListing)) :
    treeLoop ((r, es) :: rest) =
      listingOuts r es ++ treeLoop (rest ++ listingDirs r es) := by
  have h1 : queueMeasure ((r, es) :: rest) = (es.sz + queueMeasure rest) + 1 := by
    simp [queueMeasure]
    omega
  rw [treeLoop, h1]
  simp only [treeLoopFuel]
  rw [treeLoop]
  congr 1
  have hdirs := queueMeasure_listingDirs r es
  have hd : queueMeasure (rest ++ listingDirs r es) ≤ es.sz + queueMeasure rest := by
    rw [queueMeasure_append]
    omega
  exact treeLoopFuel_congr _ _ _ hd (Nat.le_refl _)

theorem reachListing_perm (r : String) :
    ∀ es : FSListing,
      List.Perm (reachListing r es)
        (listingOuts r es ++ flatQueue (listingDirs r es))
  | .nil => by simp [reachListing, listingOuts, listingDirs, flatQueue]
  | .cons name e rest => by
      cases e with
      | file =>
          simpa [reachListing, reachEntry, listingOuts, listingDirs] using
            (reachListing_perm r rest).cons (childRel r name)
      | dir cs =>
          simp only [reachListing, reachEntry, listingOuts, listingDirs,
            flatQueue, List.cons_append, List.append_assoc]
          refine List.Perm.cons _ ?_
          have h1 := List.Perm.append_left (reachListing (childRel r name) cs)
            (reachListing_perm r rest)
          rw [← List.append_assoc] at h1
          have h2 := List.Perm.append_right
            (flatQueue (listingDirs r rest))
            (@List.perm_append_comm String (reachListing (childRel r name) cs)
              (listingOuts r rest))
          have h3 := h1.trans h2
          rw [List.append_assoc] at h3
          exact h3

theorem flatQueue_append :
    ∀ q1 q2, flatQueue (q1 ++ q2) = flatQueue q1 ++ flatQueue q2
  | [], _ => by simp [flatQueue]
  | q :: rest, q2 => by simp [flatQueue, flatQueue_append rest q2]

theorem treeLoop_perm_aux :
    ∀ (n : Nat) (q : List (String × FSListing)),
      queueMeasure q ≤ n → List.Perm (treeLoop q) (flatQueue q)
  | _, [], _ => by simp [treeLoop, queueMeasure, treeLoopFuel, flatQueue]
  | 0, (r, es) :: rest, h => by
      exfalso
      have hq : queueMeasure ((r, es) :: rest) = 1 + es.sz + queueMeasure rest := rfl
      omega
  | n + 1, (r, es) :: rest, h => by
      rw [treeLoop_cons]
      have hq : queueMeasure ((r, es) :: rest) = 1 + es.sz + queueMeasure rest := rfl
      have hdirs := queueMeasure_listingDirs r es
      have hle : queueMeasure (rest ++ listingDirs r es) ≤ n := by
        rw [queueMeasure_append]
        omega
      have ih := treeLoop_perm_aux n (rest ++ listingDirs r es) hle
      rw [flatQueue_append] at ih
      show List.Perm _ (reachListing r es ++ flatQueue rest)
      have h1 := List.Perm.append_left (listingOuts r es) ih
      have h2 := List.Perm.append_left (listingOuts r es)
        (@List.perm_append_comm String (flatQueue rest)
          (flatQueue (listingDirs r es)))
      have h3 := h1.trans h2
      rw [← List.append_assoc] at h3
      have h4 := List.Perm.append_right (flatQueue rest)
        (reachListing_perm r es).symm
      exact h3.trans h4

theorem treeLoop_perm_rootRels (root : FSListing) :
    List.Perm (treeLoop [("", root)]) (rootRels root) := by
  have h := treeLoop_perm_aux (queueMeasure [("", root)]) [("", root)]
    (Nat.le_refl _)
  simpa [flatQueue, rootRels] using h

/-- C10: `ContextDir.tree` returns the relative path of every entry
reachable from the root — directories suffixed with `/` — except the
top-level staging entry `TMP_DIR_NAME ++ "/"`; the result is sorted by the
`localeCompare` order, the staging entry is absent, and every other
reachable entry appears exactly once (given that the tree's relative paths
are distinct, as they are for a real directory). -/
theorem contextDirTree (tmp : String) (root : FSListing)
    (hnd : (rootRels root).Nodup) :
    (tree tmp root).Pairwise localeLeP ∧
    (∀ p, p ∈ tree tmp root ↔ (p ∈ rootRels root ∧ p ≠ tmp ++ "/")) ∧
    (tmp ++ "/") ∉ tree tmp root ∧
    (∀ p, p ∈ rootRels root → p ≠ tmp ++ "/" → (tree tmp root).count p = 1) := by
  have hperm : List.Perm (List.insertionSort localeLeP (treeLoop [("", root)]))
      (rootRels root) :=
    (List.perm_insertionSort localeLeP _).trans (treeLoop_perm_rootRels root)
  have hmem : ∀ p, p ∈ tree tmp root ↔ (p ∈ rootRels root ∧ p ≠ tmp ++ "/") := by
    intro p
    rw [tree, List.mem_filter, hperm.mem_iff, bne_iff_ne]
  refine ⟨?_, hmem, ?_, ?_⟩
  · exact List.Pairwise.filter _ (List.sorted_insertionSort localeLeP _)
  · intro hin
    exact ((hmem _).1 hin).2 rfl
  · intro p hp hne
    rw [tree, List.count_filter (by simpa [bne_iff_ne] using hne)]
    rw [hperm.count_eq]
    exact List.count_eq_one_of_mem hnd hp

/-- Witness for `contextDirTree` on `sampleRoot`. -/
theorem contextDirTree_witness :
    (tree "tmp-stage" sampleRoot).Pairwise localeLeP ∧
    (∀ p, p ∈ tree "tmp-stage" sampleRoot ↔
      (p ∈ rootRels sampleRoot ∧ p ≠ "tmp-stage" ++ "/")) ∧
    ("tmp-stage" ++ "/") ∉ tree "tmp-stage" sampleRoot ∧
    (∀ p, p ∈ rootRels sampleRoot → p ≠ "tmp-stage" ++ "/" →
      (tree "tmp-stage" sampleRoot).count p = 1) :=
  contextDirTree "tmp-stage" sampleRoot (by decide)

end CtxDir

namespace Scenario

/-- C5: running S3's actions — rename `src` to `dst`, then append
`" blah"` to `dst/file` — from its synchronized init tree and letting the
sync converge yields the expected remote tree `["dst/", "dst/file"]`,
content `"foo blah"` for `dst/file`, and an empty remote trash. -/
theorem s3Converges :
    (convergedRemote (runActions (initFS s3.init) s3.actions)).tree =
      s3.expected.tree ∧
    (∀ pc ∈ s3.expected.contents,
      lookupContent (convergedRemote (runActions (initFS s3.init) s3.actions)).contents
        pc.1 = some pc.2) ∧
    (convergedRemote (runActions (initFS s3.init) s3.actions)).trash =
      s3.expected.remoteTrash := by
  refine ⟨rfl, ?_, rfl⟩
  decide

end Scenario

namespace Conflict

theorem strAppendEmpty (s : String) : s ++ "" = s := by
  cases s with
  | mk data =>
      show String.mk (data ++ []) = String.mk data
      rw [List.append_nil]

/-- C6: with local `JOHN` present, a remote addition of `john` — the two
paths fold to the same canonical id on a case-insensitive platform —
keeps exactly one of the directories (`JOHN`) and adds a single
conflict-renamed sibling `john-conflict-<ts>`; the `-conflict-<ts>` suffix
goes before the extension (`b.txt` becomes `b-conflict-<ts>.txt`), and
`john` itself is not in the result. -/
theorem caseConflictRename (ts : String) :
    reconcileAddition ["JOHN"] "john" ts = ["JOHN", "john-conflict-" ++ ts] ∧
    conflictName "john" ts = "john-conflict-" ++ ts ∧
    conflictName "b.txt" ts = "b-conflict-" ++ ts ++ ".txt" ∧
    "john" ∉ reconcileAddition ["JOHN"] "john" ts := by
  have h2 : conflictName "john" ts = "john-conflict-" ++ ts := by
    show ("john-conflict-" ++ ts) ++ "" = "john-conflict-" ++ ts
    exact strAppendEmpty _
  have h1 : reconcileAddition ["JOHN"] "john" ts =
      ["JOHN", "john-conflict-" ++ ts] := by
    show ["JOHN"] ++ [conflictName "john" ts] = _
    rw [h2]
    rfl
  refine ⟨h1, h2, rfl, ?_⟩
  rw [h1]
  intro hmem
  rcases List.mem_cons.1 hmem with h | h
  · exact absurd h (by decide)
  · rw [List.mem_singleton] at h
    have hlen := congrArg String.length h
    rw [String.length_append] at hlen
    have h4 : String.length "john" = 4 := rfl
    have h14 : String.length "john-conflict-" = 14 := rfl
    rw [h4, h14] at hlen
    omega

end Conflict

namespace Order

theorem strictAncestor_depth {a b : List String} (h : strictAncestor a b) :
    a.length < b.length := by
  obtain ⟨rest, hne, hb⟩ := h
  subst hb
  rcases rest with _ | ⟨x, xs⟩
  · exact absurd rfl hne
  · simp

/-- C7: in every batch, the sorted deletes are depth-descending — so no
operation on a path ever precedes one on a strict descendant of that path
— the sorted creates/moves are depth-ascending — parents before children
— both outputs are permutations of the batch, and a pair of equal-depth
operations keeps its original (document sequence) order in both outputs. -/
theorem batchOrdering (ops : List SyncOp) (a b : SyncOp)
    (hdepth : opDepth a = opDepth b) (hpair : List.Sublist [a, b] ops) :
    (sortDeletes ops).Pairwise deleteLe ∧
    (sortCreates ops).Pairwise createLe ∧
    List.Perm (sortDeletes ops) ops ∧
    List.Perm (sortCreates ops) ops ∧
    (sortDeletes ops).Pairwise
      (fun x y => ¬ strictAncestor x.segments y.segments) ∧
    (sortCreates ops).Pairwise
      (fun x y => ¬ strictAncestor y.segments x.segments) ∧
    List.Sublist [a, b] (sortDeletes ops) ∧
    List.Sublist [a, b] (sortCreates ops) := by
  have hsd : (sortDeletes ops).Pairwise deleteLe :=
    List.sorted_insertionSort deleteLe ops
  have hsc : (sortCreates ops).Pairwise createLe :=
    List.sorted_insertionSort createLe ops
  refine ⟨hsd, hsc, List.perm_insertionSort deleteLe ops,
    List.perm_insertionSort createLe ops, ?_, ?_, ?_, ?_⟩
  · exact hsd.imp (fun hxy hanc => by
      have hlt := strictAncestor_depth hanc
      have : opDepth _ ≤ opDepth _ := hxy
      simp only [opDepth] at this
      omega)
  · exact hsc.imp (fun hxy hanc => by
      have hlt := strictAncestor_depth hanc
      have : opDepth _ ≤ opDepth _ := hxy
      simp only [opDepth] at this
      omega)
  · exact List.pair_sublist_insertionSort
      (show deleteLe a b by rw [deleteLe, hdepth]) hpair
  · exact List.pair_sublist_insertionSort
      (show createLe a b by rw [createLe, hdepth]) hpair

/-- Witness for `batchOrdering`: a two-operation batch of equal depth. -/
theorem batchOrdering_witness :
    (sortDeletes [⟨["a"], 0⟩, ⟨["b"], 1⟩]).Pairwise deleteLe ∧
    (sortCreates [⟨["a"], 0⟩, ⟨["b"], 1⟩]).Pairwise createLe ∧
    List.Perm (sortDeletes [⟨["a"], 0⟩, ⟨["b"], 1⟩]) [⟨["a"], 0⟩, ⟨["b"], 1⟩] ∧
    List.Perm (sortCreates [⟨["a"], 0⟩, ⟨["b"], 1⟩]) [⟨["a"], 0⟩, ⟨["b"], 1⟩] ∧
    (sortDeletes [⟨["a"], 0⟩, ⟨["b"], 1⟩]).Pairwise
      (fun x y => ¬ strictAncestor x.segments y.segments) ∧
    (sortCreates [⟨["a"], 0⟩, ⟨["b"], 1⟩]).Pairwise
      (fun x y => ¬ strictAncestor y.segments x.segments) ∧
    List.Sublist [(⟨["a"], 0⟩ : SyncOp), ⟨["b"], 1⟩]
      (sortDeletes [⟨["a"], 0⟩, ⟨["b"], 1⟩]) ∧
    List.Sublist [(⟨["a"], 0⟩ : SyncOp), ⟨["b"], 1⟩]
      (sortCreates [⟨["a"], 0⟩, ⟨["b"], 1⟩]) :=
  batchOrdering [⟨["a"], 0⟩, ⟨["b"], 1⟩] ⟨["a"], 0⟩ ⟨["b"], 1⟩ rfl
    (List.Sublist.refl _)

end Order

namespace Trash

/-- C1 (the code at the failing input): trashing `parent/dir` in the
directory test's tree writes deleted documents exactly for `subdir`,
`empty-subdir` and `dir` — the test's putDocs expectation — and no
deleted document for the descendant file `parent/dir/subdir/file`, whose
document keeps `deleted = false` with a path still under the folder. -/
theorem folderTrashOmitsDescendantFile :
    (trashFolderPutDocs dirTestDocs "parent/dir").map PutDoc.path =
      ["parent/dir/subdir", "parent/dir/empty-subdir", "parent/dir"] ∧
    "parent/dir/subdir/file" ∉
      (trashFolderPutDocs dirTestDocs "parent/dir").map PutDoc.path ∧
    (⟨⟨"parent/dir/subdir/file", DocType.file⟩, false⟩ : MetaDoc × Bool) ∈
      applyPuts (dirTestDocs.map (fun d => (d, false)))
        (trashFolderPutDocs dirTestDocs "parent/dir") ∧
    isUnder "parent/dir" "parent/dir/subdir/file" = true := by
  refine ⟨by decide, by decide, by decide, by decide⟩

/-- C3 counterexample: right after the trash of `parent/file` is merged —
before `syncAll`, so before the remote side acknowledges anything — the
document is already unretrievable: `pouch.db.get` rejects with 404, as
the test asserts. -/
theorem tombstoneNotRetrievable :
    (mergeTrashFile fileTestState "parent/file").remoteAcked = false ∧
    getById (mergeTrashFile fileTestState "parent/file")
      (metadataId "parent/file") = none := by
  refine ⟨rfl, by decide⟩

/-- C3 amended: merging a trash writes the document with `_deleted: true`
— the tombstone row is retained in the store — but the document
immediately stops being retrievable by id (get rejects with 404), without
waiting for the other side to acknowledge the deletion. -/
theorem trashMergeTombstone (ps : PouchState) (p : String)
    (h : ∃ r ∈ ps.rows, r.id = metadataId p) :
    (∃ r ∈ (mergeTrashFile ps p).rows, r.id = metadataId p ∧ r.deleted = true) ∧
    getById (mergeTrashFile ps p) (metadataId p) = none := by
  constructor
  · obtain ⟨r, hr, hid⟩ := h
    refine ⟨{ r with deleted := true }, ?_, hid, rfl⟩
    rw [mergeTrashFile]
    refine List.mem_map.2 ⟨r, hr, ?_⟩
    rw [if_pos (by simp [hid])]
  · rw [getById]
    have hnone :
        (mergeTrashFile ps p).rows.find?
          (fun r => r.id == metadataId p && !r.deleted) = none := by
      rw [List.find?_eq_none]
      intro x hx
      rw [mergeTrashFile] at hx
      obtain ⟨r, _, hr⟩ := List.mem_map.1 hx
      by_cases hid : r.id == metadataId p
      · rw [if_pos hid] at hr
        subst hr
        simp
      · rw [if_neg hid] at hr
        subst hr
        simp only [Bool.and_eq_true]
        intro hcon
        exact absurd hcon.1 hid
    rw [hnone]

/-- Witness for `trashMergeTombstone` on the file test's store. -/
theorem trashMergeTombstone_witness :
    (∃ r ∈ (mergeTrashFile fileTestState "parent/file").rows,
      r.id = metadataId "parent/file" ∧ r.deleted = true) ∧
    getById (mergeTrashFile fileTestState "parent/file")
      (metadataId "parent/file") = none :=
  trashMergeTombstone fileTestState "parent/file"
    ⟨⟨"parent/file", ⟨"parent/file", DocType.file⟩, false⟩, by decide, rfl⟩

/-- C2 counterexample: after the remote trash of `parent/file` is
propagated, nothing in the local tree lies under `.Trash/` — the trashed
file is not at `<root>/.Trash`. -/
theorem dotTrashNotUsed :
    ".Trash/file" ∉ localTree (applyLocalFileTrash fileTestLocal "parent/file") ∧
    ∀ e ∈ localTree (applyLocalFileTrash fileTestLocal "parent/file"),
      strStarts e ".Trash/" = false := by
  decide

/-- C2 amended: propagating to the local side the remote trash of
`parent/file` — the remote trash being the directory whose id is
`.cozy_trash` — lands the file in the local trash at `/Trash` under the
sync root: the resulting local tree is exactly the test's expectation
`["/Trash/file", "parent/"]`. -/
theorem remoteTrashPropagation :
    localTrashDirName = "/Trash" ∧
    remoteTrashDirId = ".cozy_trash" ∧
    localTree (applyLocalFileTrash fileTestLocal "parent/file") =
      ["/Trash/file", "parent/"] ∧
    basename "parent/file" ∈ (applyLocalFileTrash fileTestLocal "parent/file").trash := by
  refine ⟨rfl, rfl, by decide, by decide⟩

end Trash

end CozyDesktop
